import Mathlib

/-!
Verification of the `ivs` dollar-cost-averaging return calculator.

Shallow embedding of `ivs.py` (functions `calculateReturn`, `monthlyClose`,
`calculateReturnTransaction`, `averageReturnTransactions`,
`purchaseSharesMonthly`, `smartMonthlyPurchase`).

Modelling conventions:
* Dates are day numbers (`ℤ`).  The input consists of daily closes whose
  pandas timestamps are date-aligned, so `(t2 - t1).days` is exact integer
  subtraction.
* Machine floats are modelled as real numbers `ℝ`.
* A Python runtime failure (`ValueError` from `math.log10` on a
  non-positive argument, `ZeroDivisionError`, `IndexError` from `[0]` or
  `[-1]` on an empty list) terminates the computation; a computation that
  can fail is modelled with `Option`, failures as `none`.
* Python 2 `round` rounds halves away from zero while Mathlib `round` on
  `ℚ` rounds halves up.  The code only rounds `days / 30.5`, and
  `days / 30.5` can never be an exact half-integer (it would force
  `4 * days = 61 * odd`), so the two agree on every reachable input.
-/

/-- A row of the sorted input dataframe: the `Date` field exposes `.year`
and `.month`, `close` is the `Close` price, `date` the timestamp (as a day
number). -/
structure Row where
  year : ℤ
  month : ℤ
  close : ℝ
  date : ℤ

/-- Named tuple `Closing = namedtuple("Closing", "year month value timestamp")`. -/
structure Closing where
  year : ℤ
  month : ℤ
  value : ℝ
  timestamp : ℤ

/-- Named tuple `Transaction = namedtuple("Transaction",
"year month value timestamp shares amount")`. -/
structure Transaction where
  year : ℤ
  month : ℤ
  value : ℝ
  timestamp : ℤ
  shares : ℝ
  amount : ℝ

/-- Source `calculateReturn(v1, v2, mths)`:
`years = mths/12.0; rate = 10**((log10(v2) - log10(v1))/years) - 1.0`.
`math.log10` raises `ValueError` on a non-positive argument and the
division raises `ZeroDivisionError` when `years == 0`; both failures are
modelled as `none`. -/
noncomputable def calculateReturn (v1 v2 mths : ℝ) : Option ℝ :=
  if v1 ≤ 0 ∨ v2 ≤ 0 ∨ mths = 0 then none
  else some ((10 : ℝ) ^ ((Real.logb 10 v2 - Real.logb 10 v1) / (mths / 12)) - 1)

/-- Loop of `monthlyClose`, carrying the mutable `prevYear`/`prevMonth`
(both initialised to the sentinel `-1`). -/
def monthlyCloseAux (prevYear prevMonth : ℤ) : List Row → List Closing
  | [] => []
  | r :: rs =>
    if r.month > prevMonth ∨ r.year > prevYear then
      ⟨r.year, r.month, r.close, r.date⟩ :: monthlyCloseAux r.year r.month rs
    else
      monthlyCloseAux prevYear prevMonth rs

/-- Source `monthlyClose(dfs)`: emit a `Closing` whenever the row's month exceeds
the tracked month or its year exceeds the tracked year. -/
def monthlyClose (dfs : List Row) : List Closing :=
  monthlyCloseAux (-1) (-1) dfs

/-- Source `calculateReturnTransaction(transaction, closingValues)`:
`totalMonths = (duration.days/365.25)*12.0` through the last closing;
`closingValues[-1]` on an empty list raises `IndexError` (`none`). -/
noncomputable def calculateReturnTransaction (t : Transaction)
    (closingValues : List Closing) : Option ℝ :=
  match closingValues.getLast? with
  | none => none
  | some last =>
      calculateReturn t.amount (last.value * t.shares)
        (((last.timestamp - t.timestamp : ℤ) : ℝ) / 365.25 * 12)

/-- The accumulation loop of `averageReturnTransactions` over
`transactions[0:-1]`, threading `totalR`, `totalAmount`, `totalShares`,
`weightedR`.  (The source calls `calculateReturnTransaction` twice per
iteration with identical arguments; being pure, one shared call is the
same value.) -/
noncomputable def aggLoop (closingValues : List Closing) :
    List Transaction → ℝ → ℝ → ℝ → ℝ → Option (ℝ × ℝ × ℝ × ℝ)
  | [], totalR, totalAmount, totalShares, weightedR =>
      some (totalR, totalAmount, totalShares, weightedR)
  | t :: ts, totalR, totalAmount, totalShares, weightedR =>
      match calculateReturnTransaction t closingValues with
      | none => none
      | some r =>
          aggLoop closingValues ts (totalR + r) (totalAmount + t.amount)
            (totalShares + t.shares) (weightedR + t.shares * r)

/-- Source `averageReturnTransactions(transactions, closingValues)`: reports
`totalR/len(transactions)` and `weightedR/totalShares` (the source prints
them scaled by `100.0` as percentages; the underlying fractions are the
values).  Division by `len(transactions) == 0` or by `totalShares == 0.0`
raises `ZeroDivisionError` (`none`); so does any failing per-transaction
return, including the `closingValues[-1]` access on an empty series. -/
noncomputable def averageReturnTransactions
    (transactions : List Transaction) (closingValues : List Closing) :
    Option (ℝ × ℝ) :=
  match aggLoop closingValues transactions.dropLast 0 0 0 0 with
  | none => none
  | some (totalR, _totalAmount, totalShares, weightedR) =>
      if transactions.length = 0 then none
      else if totalShares = 0 then none
      else some (totalR / (transactions.length : ℝ), weightedR / totalShares)

/-- Loop of `purchaseSharesMonthly`, threading `totalShares` and the
transaction list. -/
noncomputable def purchaseLoop (x : ℝ) :
    List Closing → ℝ → List Transaction → ℝ × List Transaction
  | [], totalShares, transactions => (totalShares, transactions)
  | v :: vs, totalShares, transactions =>
      purchaseLoop x vs (totalShares + x / v.value)
        (transactions ++ [⟨v.year, v.month, v.value, v.timestamp, x / v.value, x⟩])

/-- Source `purchaseSharesMonthly(closingValues, x)`: invest `x` at every monthly
closing value. -/
noncomputable def purchaseSharesMonthly (closingValues : List Closing)
    (x : ℝ) : ℝ × List Transaction :=
  purchaseLoop x closingValues 0 []

/-- Loop of `smartMonthlyPurchase`, threading `startYear`,
`totalRemainingThisYear` (never modified by the source), `totalShares`
and the transaction list.  (`totalInvestedThisYear` is assigned `0.0` and
never read; it is omitted.) -/
noncomputable def smartLoop :
    List Closing → ℤ → ℝ → ℝ → List Transaction → ℝ × List Transaction
  | [], _, _, totalShares, transactions => (totalShares, transactions)
  | v :: vs, startYear, totalRemainingThisYear, totalShares, transactions =>
      if round (((v.timestamp - startYear : ℤ) : ℚ) / 30.5) = 12 then
        smartLoop vs v.timestamp totalRemainingThisYear
          (totalShares + totalRemainingThisYear / v.value)
          (transactions ++
            [⟨v.year, v.month, v.value, v.timestamp,
              totalRemainingThisYear / v.value, totalRemainingThisYear⟩])
      else
        smartLoop vs startYear totalRemainingThisYear totalShares transactions

/-- The final `print "===>", transactions[0]` of `smartMonthlyPurchase`
raises `IndexError` whenever no transaction was emitted: an empty batch is
a failure (`none`), a non-empty one is returned unchanged. -/
noncomputable def requireTransactions :
    ℝ × List Transaction → Option (ℝ × List Transaction)
  | (_, []) => none
  | (totalShares, t :: ts) => some (totalShares, t :: ts)

/-- Source `smartMonthlyPurchase(closingValues, x)`: `closingValues[0]` on an
empty series raises `IndexError` (`none`); otherwise run the loop from
`startYear = closingValues[0].timestamp` with
`totalRemainingThisYear = x * 12` and fail if no transaction resulted. -/
noncomputable def smartMonthlyPurchase (closingValues : List Closing)
    (x : ℝ) : Option (ℝ × List Transaction) :=
  match closingValues with
  | [] => none
  | v0 :: _ =>
      requireTransactions (smartLoop closingValues v0.timestamp (x * 12) 0 [])

/-- Modelled from the spec (§4.4 algorithm), for comparison with
`smartMonthlyPurchase`: track `windowStart`; for each subsequent
Observation compute `elapsedMonths = round((timestamp - windowStart).days
/ 30.5)`; when it equals 12 exactly, emit a Transaction for the full
`annualAmount` at that Observation's price and reset `windowStart` to
that Observation's timestamp; any other rounded value (including one that
skips past 12) emits nothing. -/
noncomputable def annualBudgetWalkSpec (annualAmount : ℝ) :
    ℤ → List Closing → List Transaction
  | _, [] => []
  | windowStart, v :: vs =>
      if round (((v.timestamp - windowStart : ℤ) : ℚ) / 30.5) = 12 then
        ⟨v.year, v.month, v.value, v.timestamp, annualAmount / v.value,
          annualAmount⟩ :: annualBudgetWalkSpec annualAmount v.timestamp vs
      else
        annualBudgetWalkSpec annualAmount windowStart vs

/-- Modelled from the spec (§4.4 contract): `windowStart` starts at the
first Observation's timestamp, only subsequent Observations are examined,
and a non-empty series yielding zero transactions is the
`InsufficientData` failure. -/
noncomputable def simulateAnnualBudgetSpec (series : List Closing)
    (annualAmount : ℝ) : Option (ℝ × List Transaction) :=
  match series with
  | [] => none
  | first :: rest =>
      match annualBudgetWalkSpec annualAmount first.timestamp rest with
      | [] => none
      | t :: ts => some (((t :: ts).map Transaction.shares).sum, t :: ts)

/-- The Observation built from a row (year, month, close, timestamp). -/
def toClosing (r : Row) : Closing := ⟨r.year, r.month, r.close, r.date⟩

/-- Lexicographic order on (year, month), non-strict. -/
abbrev lexLe (a b : ℤ × ℤ) : Prop := a.1 < b.1 ∨ (a.1 = b.1 ∧ a.2 ≤ b.2)

/-- Lexicographic order on (year, month), strict. -/
abbrev lexLt (a b : ℤ × ℤ) : Prop := a.1 < b.1 ∨ (a.1 = b.1 ∧ a.2 < b.2)

/-- The (year, month) key of a row. -/
def rowKey (r : Row) : ℤ × ℤ := (r.year, r.month)

/-- The (year, month) key of a monthly closing. -/
def closingKey (c : Closing) : ℤ × ℤ := (c.year, c.month)

/-- Sum of the `shares` fields of a transaction list. -/
def sharesSum (ts : List Transaction) : ℝ := (ts.map Transaction.shares).sum

/-- Sum of the `amount` fields of a transaction list. -/
def amountSum (ts : List Transaction) : ℝ := (ts.map Transaction.amount).sum

/-- Share-weighted sum of a list of per-transaction returns. -/
def weightedSum (ts : List Transaction) (rs : List ℝ) : ℝ :=
  (List.zipWith (fun t r => t.shares * r) ts rs).sum

/-- C4 (amended): `calculateReturn` fails exactly when `startValue ≤ 0`,
`endValue ≤ 0`, or `elapsedMonths = 0`, and for strictly positive
arguments it returns `10^((log10 endValue - log10 startValue) /
(elapsedMonths/12)) - 1` without error.  (A strictly negative
`elapsedMonths` with positive values does not fail.) -/
theorem calculateReturn_domain (v1 v2 mths : ℝ) :
    (calculateReturn v1 v2 mths = none ↔ v1 ≤ 0 ∨ v2 ≤ 0 ∨ mths = 0) ∧
    (0 < v1 → 0 < v2 → 0 < mths →
      calculateReturn v1 v2 mths =
        some ((10 : ℝ) ^
          ((Real.logb 10 v2 - Real.logb 10 v1) / (mths / 12)) - 1)) := by
  constructor
  · by_cases h : v1 ≤ 0 ∨ v2 ≤ 0 ∨ mths = 0
    · simp [calculateReturn, h]
    · simp [calculateReturn, h]
  · intro h1 h2 h3
    have h : ¬(v1 ≤ 0 ∨ v2 ≤ 0 ∨ mths = 0) := by
      push_neg
      exact ⟨h1, h2, ne_of_gt h3⟩
    simp [calculateReturn, h]

/-- Witness for C4 at the concrete input `(100, 200, 12)`. -/
theorem calculateReturn_domain_witness :
    calculateReturn 100 200 12 =
      some ((10 : ℝ) ^
        ((Real.logb 10 200 - Real.logb 10 100) / ((12 : ℝ) / 12)) - 1) :=
  (calculateReturn_domain 100 200 12).2 (by norm_num) (by norm_num) (by norm_num)

/-- C4 counterexample: at `elapsedMonths = -12 ≤ 0` (with positive start
and end values) `calculateReturn` returns a value instead of failing. -/
theorem calculateReturn_negative_months_returns_value :
    (-12 : ℝ) ≤ 0 ∧ (calculateReturn 1 2 (-12)).isSome = true := by
  have h : ¬((1 : ℝ) ≤ 0 ∨ (2 : ℝ) ≤ 0 ∨ (-12 : ℝ) = 0) := by norm_num
  refine ⟨by norm_num, ?_⟩
  simp [calculateReturn, h]

/-- C5 counterexample: `monthlyClose` of the empty series returns the
empty list; it does not fail. -/
theorem monthlyClose_empty : monthlyClose [] = [] := rfl

/-- C5 (amended): on empty input the Reducer returns the empty series
without error, and on any input whose first row carries a real calendar
month (`month ≥ 1`) it returns a non-empty series. -/
theorem monthlyClose_empty_and_nonempty (r : Row) (rs : List Row)
    (h : 1 ≤ r.month) :
    monthlyClose ([] : List Row) = [] ∧ monthlyClose (r :: rs) ≠ [] := by
  refine ⟨rfl, ?_⟩
  have hc : r.month > -1 ∨ r.year > -1 := Or.inl (by omega)
  simp [monthlyClose, monthlyCloseAux, hc]

/-- Witness for C5 at a concrete one-row input. -/
theorem monthlyClose_empty_and_nonempty_witness :
    (1 : ℤ) ≤ 1 ∧
      (monthlyClose ([] : List Row) = [] ∧
        monthlyClose [⟨2020, 1, 100, 0⟩] ≠ []) :=
  ⟨le_refl 1, monthlyClose_empty_and_nonempty ⟨2020, 1, 100, 0⟩ [] (by norm_num)⟩

/-- C3: with fewer than 2 transactions the Aggregator yields no result:
with 0 transactions the simple-average divisor `len(transactions)` is
zero, and with 1 the loop over `transactions[0:-1]` is empty, so the
weighted-average divisor `totalShares` is `0.0`; either division raises
`ZeroDivisionError`, modelled as `none`. -/
theorem averageReturnTransactions_insufficient (trs : List Transaction)
    (cvs : List Closing) (h : trs.length < 2) :
    averageReturnTransactions trs cvs = none := by
  match trs, h with
  | [], _ => simp [averageReturnTransactions, aggLoop]
  | [t], _ => simp [averageReturnTransactions, aggLoop]

/-- Witness for C3 at the concrete empty batch. -/
theorem averageReturnTransactions_insufficient_witness :
    ([] : List Transaction).length < 2 ∧
      averageReturnTransactions [] [] = none :=
  ⟨by decide, averageReturnTransactions_insufficient [] [] (by decide)⟩

/-- Unrolling of `purchaseLoop`: it appends one transaction per closing,
in order, and accumulates the corresponding shares. -/
theorem purchaseLoop_eq (x : ℝ) (vs : List Closing) :
    ∀ (ts : ℝ) (acc : List Transaction),
      purchaseLoop x vs ts acc =
        (ts + ((vs.map fun v => x / v.value).sum),
          acc ++ vs.map fun v =>
            ⟨v.year, v.month, v.value, v.timestamp, x / v.value, x⟩) := by
  induction vs with
  | nil => intro ts acc; simp [purchaseLoop]
  | cons v vs ih =>
      intro ts acc
      simp only [purchaseLoop]
      rw [ih]
      simp [add_assoc]

/-- C9: the Fixed Monthly simulator emits exactly one Transaction per
Observation, in series order, with `shares = amountPerMonth / price` and
`amount = amountPerMonth`, and its `totalShares` is the sum of
`amountPerMonth / obs.price` over the series. -/
theorem purchaseSharesMonthly_spec (cvs : List Closing) (x : ℝ)
    (_hlen : 1 ≤ cvs.length) (_hx : 0 < x) :
    (purchaseSharesMonthly cvs x).2 =
        cvs.map (fun v =>
          ⟨v.year, v.month, v.value, v.timestamp, x / v.value, x⟩) ∧
    (purchaseSharesMonthly cvs x).1 = ((cvs.map fun v => x / v.value).sum) := by
  rw [purchaseSharesMonthly, purchaseLoop_eq]
  simp

/-- Witness for C9 at a concrete one-element series. -/
theorem purchaseSharesMonthly_spec_witness :
    (purchaseSharesMonthly [⟨2020, 1, 100, 0⟩] 100).2 =
        [⟨2020, 1, 100, 0, (100 : ℝ) / 100, 100⟩] ∧
    (purchaseSharesMonthly [⟨2020, 1, 100, 0⟩] 100).1 = (100 : ℝ) / 100 + 0 :=
  purchaseSharesMonthly_spec [⟨2020, 1, 100, 0⟩] 100 (by decide) (by norm_num)

/-- Unrolling of `smartLoop`: with a fixed remaining annual budget it
appends exactly the transactions of the spec window walk and accumulates
their shares. -/
theorem smartLoop_eq (A : ℝ) (vs : List Closing) :
    ∀ (start : ℤ) (ts : ℝ) (acc : List Transaction),
      smartLoop vs start A ts acc =
        (ts + ((annualBudgetWalkSpec A start vs).map Transaction.shares).sum,
          acc ++ annualBudgetWalkSpec A start vs) := by
  induction vs with
  | nil => intro start ts acc; simp [smartLoop, annualBudgetWalkSpec]
  | cons v vs ih =>
      intro start ts acc
      simp only [smartLoop, annualBudgetWalkSpec]
      by_cases h : round (((v.timestamp - start : ℤ) : ℚ) / 30.5) = 12
      · rw [if_pos h, if_pos h, ih]
        simp [add_assoc]
      · rw [if_neg h, if_neg h, ih]

/-- C2: on any non-empty MonthlySeries the implementation coincides with
the spec's Annual-Budget Smoothed algorithm: `windowStart` starts at the
first Observation's timestamp, each Observation's
`round((timestamp - windowStart).days / 30.5)` is tested for exact
equality with 12, a hit invests the full annual amount `x * 12` at that
Observation's price and resets the window, and a rounded count that skips
past 12 emits nothing. -/
theorem smartMonthlyPurchase_refines_spec (v0 : Closing)
    (rest : List Closing) (x : ℝ) :
    smartMonthlyPurchase (v0 :: rest) x =
      simulateAnnualBudgetSpec (v0 :: rest) (x * 12) := by
  have h0 : ¬(round (((v0.timestamp - v0.timestamp : ℤ) : ℚ) / 30.5) = 12) := by
    simp
  simp only [smartMonthlyPurchase, simulateAnnualBudgetSpec]
  simp only [smartLoop, if_neg h0]
  rw [smartLoop_eq]
  simp only [List.nil_append, zero_add]
  cases annualBudgetWalkSpec (x * 12) v0.timestamp rest with
  | nil => rfl
  | cons t ts => rfl

/-- Elements of the spec window walk: every emitted transaction carries
the full annual amount and the corresponding share count at its price. -/
theorem annualBudgetWalkSpec_mem (A : ℝ) (vs : List Closing) :
    ∀ (start : ℤ) (t : Transaction), t ∈ annualBudgetWalkSpec A start vs →
      t.amount = A ∧ t.shares = A / t.value := by
  induction vs with
  | nil => intro start t ht; simp [annualBudgetWalkSpec] at ht
  | cons v vs ih =>
      intro start t ht
      simp only [annualBudgetWalkSpec] at ht
      by_cases h : round (((v.timestamp - start : ℤ) : ℚ) / 30.5) = 12
      · rw [if_pos h] at ht
        rcases List.mem_cons.mp ht with h0 | h0
        · subst h0; exact ⟨rfl, rfl⟩
        · exact ih v.timestamp t h0
      · rw [if_neg h] at ht
        exact ih start t ht

/-- If the trigger never fires relative to a fixed window start, the spec
walk emits nothing. -/
theorem annualBudgetWalkSpec_nil (A : ℝ) (vs : List Closing) (start : ℤ)
    (h : ∀ v ∈ vs, round (((v.timestamp - start : ℤ) : ℚ) / 30.5) ≠ 12) :
    annualBudgetWalkSpec A start vs = [] := by
  induction vs with
  | nil => rfl
  | cons v vs ih =>
      simp only [annualBudgetWalkSpec]
      rw [if_neg (h v (List.mem_cons_self v vs))]
      exact ih fun u hu => h u (List.mem_cons_of_mem v hu)

/-- C10: every transaction the smoothed simulator emits invests the full
annual budget: `amount = x * 12` and `shares = x * 12 / price`
(`totalRemainingThisYear` is initialised to `x * 12` and never decremented
or reset), and the returned `totalShares` is the sum of the emitted
transactions' shares. -/
theorem smartMonthlyPurchase_full_budget (cvs : List Closing) (x : ℝ)
    (ts : ℝ) (trs : List Transaction)
    (h : smartMonthlyPurchase cvs x = some (ts, trs)) :
    (∀ t ∈ trs, t.amount = x * 12 ∧ t.shares = x * 12 / t.value) ∧
    ts = (trs.map Transaction.shares).sum := by
  match cvs with
  | [] => simp [smartMonthlyPurchase] at h
  | v0 :: rest =>
      simp only [smartMonthlyPurchase] at h
      rw [smartLoop_eq] at h
      simp only [List.nil_append, zero_add] at h
      rcases hw : annualBudgetWalkSpec (x * 12) v0.timestamp (v0 :: rest) with
        _ | ⟨t0, ts0⟩
      · rw [hw] at h
        simp [requireTransactions] at h
      · rw [hw] at h
        simp only [requireTransactions, Option.some.injEq, Prod.mk.injEq] at h
        obtain ⟨hts, htrs⟩ := h
        subst htrs
        refine ⟨?_, hts.symm⟩
        intro t ht
        rw [← hw] at ht
        exact annualBudgetWalkSpec_mem (x * 12) (v0 :: rest) v0.timestamp t ht

/-- Witness for C10 at a concrete two-element series with one trigger. -/
theorem smartMonthlyPurchase_full_budget_witness :
    (0 : ℝ) + 100 * 12 / 200 =
      (([⟨2021, 1, 200, 366, 100 * 12 / 200, 100 * 12⟩] : List Transaction).map
        Transaction.shares).sum := by
  have h1 : ¬(round ((((0 : ℤ) - (0 : ℤ) : ℤ) : ℚ) / 30.5) = 12) := by
    norm_num
  have h2 : round ((((366 : ℤ) - (0 : ℤ) : ℤ) : ℚ) / 30.5) = 12 := by
    norm_num [round_eq]
  have h : smartMonthlyPurchase
      [⟨2020, 1, 100, 0⟩, ⟨2021, 1, 200, 366⟩] 100 =
      some ((0 : ℝ) + 100 * 12 / 200,
        [⟨2021, 1, 200, 366, 100 * 12 / 200, 100 * 12⟩]) := by
    simp only [smartMonthlyPurchase, smartLoop]
    rw [if_neg h1, if_pos h2]
    simp [requireTransactions]
  exact (smartMonthlyPurchase_full_budget
    [⟨2020, 1, 100, 0⟩, ⟨2021, 1, 200, 366⟩] 100 (0 + 100 * 12 / 200)
    [⟨2021, 1, 200, 366, 100 * 12 / 200, 100 * 12⟩] h).2

/-- C6: if no observation of a non-empty series sits at a rounded
12-month offset from the first observation's timestamp, the smoothed
simulator emits zero transactions and the run fails (the source then
evaluates `transactions[0]`, an `IndexError`), modelled as `none`. -/
theorem smartMonthlyPurchase_no_trigger (v0 : Closing)
    (rest : List Closing) (x : ℝ)
    (h : ∀ v ∈ v0 :: rest,
      round (((v.timestamp - v0.timestamp : ℤ) : ℚ) / 30.5) ≠ 12) :
    smartLoop (v0 :: rest) v0.timestamp (x * 12) 0 [] = (0, []) ∧
    smartMonthlyPurchase (v0 :: rest) x = none := by
  have hw : annualBudgetWalkSpec (x * 12) v0.timestamp (v0 :: rest) = [] :=
    annualBudgetWalkSpec_nil (x * 12) (v0 :: rest) v0.timestamp h
  constructor
  · rw [smartLoop_eq, hw]; simp
  · simp only [smartMonthlyPurchase]
    rw [smartLoop_eq, hw]
    simp [requireTransactions]

/-- Witness for C6: a 12-observation series spanning 334 days (exactly 11
calendar months, 2020-01 through 2020-12 starts) never reaches a rounded
elapsed count of 12, so the simulator fails. -/
theorem smartMonthlyPurchase_no_trigger_witness :
    smartMonthlyPurchase
      [⟨2020, 1, 100, 0⟩, ⟨2020, 2, 100, 31⟩, ⟨2020, 3, 100, 59⟩,
        ⟨2020, 4, 100, 90⟩, ⟨2020, 5, 100, 120⟩, ⟨2020, 6, 100, 151⟩,
        ⟨2020, 7, 100, 181⟩, ⟨2020, 8, 100, 212⟩, ⟨2020, 9, 100, 243⟩,
        ⟨2020, 10, 100, 273⟩, ⟨2020, 11, 100, 304⟩, ⟨2020, 12, 100, 334⟩] 1 =
      none := by
  have h : ∀ v ∈ ([⟨2020, 1, 100, 0⟩, ⟨2020, 2, 100, 31⟩, ⟨2020, 3, 100, 59⟩,
        ⟨2020, 4, 100, 90⟩, ⟨2020, 5, 100, 120⟩, ⟨2020, 6, 100, 151⟩,
        ⟨2020, 7, 100, 181⟩, ⟨2020, 8, 100, 212⟩, ⟨2020, 9, 100, 243⟩,
        ⟨2020, 10, 100, 273⟩, ⟨2020, 11, 100, 304⟩,
        ⟨2020, 12, 100, 334⟩] : List Closing),
      round (((v.timestamp - (0 : ℤ) : ℤ) : ℚ) / 30.5) ≠ 12 := by
    intro v hv
    fin_cases hv <;> norm_num [round_eq]
  exact (smartMonthlyPurchase_no_trigger ⟨2020, 1, 100, 0⟩
    [⟨2020, 2, 100, 31⟩, ⟨2020, 3, 100, 59⟩, ⟨2020, 4, 100, 90⟩,
      ⟨2020, 5, 100, 120⟩, ⟨2020, 6, 100, 151⟩, ⟨2020, 7, 100, 181⟩,
      ⟨2020, 8, 100, 212⟩, ⟨2020, 9, 100, 243⟩, ⟨2020, 10, 100, 273⟩,
      ⟨2020, 11, 100, 304⟩, ⟨2020, 12, 100, 334⟩] 1 h).2

/-- Unrolling of `aggLoop` when every included transaction's return
computes: the accumulators collect the sums of returns, amounts, shares
and share-weighted returns. -/
theorem aggLoop_eq (cvs : List Closing) (ts : List Transaction) (rs : List ℝ)
    (h : List.Forall₂
      (fun t r => calculateReturnTransaction t cvs = some r) ts rs) :
    ∀ (a b c d : ℝ),
      aggLoop cvs ts a b c d =
        some (a + rs.sum, b + amountSum ts, c + sharesSum ts,
          d + weightedSum ts rs) := by
  induction h with
  | nil =>
      intro a b c d
      simp [aggLoop, amountSum, sharesSum, weightedSum]
  | @cons t r ts rs ht hrest ih =>
      intro a b c d
      simp only [aggLoop, ht]
      rw [ih]
      simp [amountSum, sharesSum, weightedSum, add_assoc]

/-- The Aggregator's output on a successful run: the simple average
divides the sum of the included returns by the length of the whole batch,
and the weighted average divides the share-weighted sum by the included
share total. -/
theorem averageReturnTransactions_eq (trs : List Transaction)
    (cvs : List Closing) (rs : List ℝ)
    (hrs : List.Forall₂
      (fun t r => calculateReturnTransaction t cvs = some r) trs.dropLast rs)
    (hlen : trs.length ≠ 0) (hsh : sharesSum trs.dropLast ≠ 0) :
    averageReturnTransactions trs cvs =
      some (rs.sum / (trs.length : ℝ),
        weightedSum trs.dropLast rs / sharesSum trs.dropLast) := by
  simp only [averageReturnTransactions]
  rw [aggLoop_eq cvs trs.dropLast rs hrs]
  simp only [zero_add]
  rw [if_neg hlen, if_neg hsh]

/-- A growing investment has a strictly positive annualized return. -/
theorem calculateReturn_pos (v1 v2 mths r : ℝ) (h1 : 0 < v1) (h2 : v1 < v2)
    (h3 : 0 < mths) (hr : calculateReturn v1 v2 mths = some r) : 0 < r := by
  have hc : ¬(v1 ≤ 0 ∨ v2 ≤ 0 ∨ mths = 0) := by
    push_neg
    exact ⟨h1, h1.trans h2, ne_of_gt h3⟩
  rw [calculateReturn, if_neg hc, Option.some.injEq] at hr
  subst hr
  have he : 0 < (Real.logb 10 v2 - Real.logb 10 v1) / (mths / 12) :=
    div_pos (sub_pos.mpr (Real.logb_lt_logb (by norm_num) h1 h2))
      (by positivity)
  have h10 : (1 : ℝ) <
      (10 : ℝ) ^ ((Real.logb 10 v2 - Real.logb 10 v1) / (mths / 12)) :=
    (Real.one_lt_rpow_iff_of_pos (by norm_num)).mpr
      (Or.inl ⟨by norm_num, he⟩)
  linarith

/-- C1 (bug evidence): the source sums the annualized returns of
`transactions[0:-1]` but divides by `len(transactions)`.  On this
three-transaction batch the reported "average" is `(r1 + r2) / 3`, which
differs from the arithmetic mean `(r1 + r2) / 2` of the two included
per-transaction returns. -/
theorem averageReturn_divisor_mismatch :
    ∃ r1 r2 w,
      calculateReturnTransaction ⟨2020, 1, 100, 0, 1, 100⟩
          [⟨2021, 1, 200, 366⟩] = some r1 ∧
      calculateReturnTransaction ⟨2020, 2, 100, 31, 1, 100⟩
          [⟨2021, 1, 200, 366⟩] = some r2 ∧
      averageReturnTransactions
          [⟨2020, 1, 100, 0, 1, 100⟩, ⟨2020, 2, 100, 31, 1, 100⟩,
            ⟨2021, 1, 200, 366, 1, 200⟩] [⟨2021, 1, 200, 366⟩] =
        some ((r1 + r2) / 3, w) ∧
      (r1 + r2) / 3 ≠ (r1 + r2) / 2 := by
  have e1 : calculateReturnTransaction ⟨2020, 1, 100, 0, 1, 100⟩
      [⟨2021, 1, 200, 366⟩] =
      calculateReturn 100 (200 * 1) (((366 - 0 : ℤ) : ℝ) / 365.25 * 12) := rfl
  have e2 : calculateReturnTransaction ⟨2020, 2, 100, 31, 1, 100⟩
      [⟨2021, 1, 200, 366⟩] =
      calculateReturn 100 (200 * 1) (((366 - 31 : ℤ) : ℝ) / 365.25 * 12) := rfl
  obtain ⟨r1, h1⟩ : ∃ r, calculateReturnTransaction ⟨2020, 1, 100, 0, 1, 100⟩
      [⟨2021, 1, 200, 366⟩] = some r :=
    ⟨_, e1.trans ((calculateReturn_domain 100 (200 * 1)
      (((366 - 0 : ℤ) : ℝ) / 365.25 * 12)).2 (by norm_num) (by norm_num)
      (by norm_num))⟩
  obtain ⟨r2, h2⟩ : ∃ r, calculateReturnTransaction ⟨2020, 2, 100, 31, 1, 100⟩
      [⟨2021, 1, 200, 366⟩] = some r :=
    ⟨_, e2.trans ((calculateReturn_domain 100 (200 * 1)
      (((366 - 31 : ℤ) : ℝ) / 365.25 * 12)).2 (by norm_num) (by norm_num)
      (by norm_num))⟩
  have hp1 : 0 < r1 := calculateReturn_pos 100 (200 * 1)
    (((366 - 0 : ℤ) : ℝ) / 365.25 * 12) r1 (by norm_num) (by norm_num)
    (by norm_num) (e1.symm.trans h1)
  have hp2 : 0 < r2 := calculateReturn_pos 100 (200 * 1)
    (((366 - 31 : ℤ) : ℝ) / 365.25 * 12) r2 (by norm_num) (by norm_num)
    (by norm_num) (e2.symm.trans h2)
  have hav := averageReturnTransactions_eq
    [⟨2020, 1, 100, 0, 1, 100⟩, ⟨2020, 2, 100, 31, 1, 100⟩,
      ⟨2021, 1, 200, 366, 1, 200⟩] [⟨2021, 1, 200, 366⟩] [r1, r2]
    (List.Forall₂.cons h1 (List.Forall₂.cons h2 List.Forall₂.nil))
    (by simp) (by norm_num [sharesSum])
  refine ⟨r1, r2,
    weightedSum ([⟨2020, 1, 100, 0, 1, 100⟩, ⟨2020, 2, 100, 31, 1, 100⟩,
      ⟨2021, 1, 200, 366, 1, 200⟩] : List Transaction).dropLast [r1, r2] /
      sharesSum ([⟨2020, 1, 100, 0, 1, 100⟩, ⟨2020, 2, 100, 31, 1, 100⟩,
        ⟨2021, 1, 200, 366, 1, 200⟩] : List Transaction).dropLast,
    h1, h2, ?_, ?_⟩
  · rw [hav]
    norm_num
  · intro heq
    have hq := (div_eq_div_iff (show (3 : ℝ) ≠ 0 by norm_num)
      (show (2 : ℝ) ≠ 0 by norm_num)).mp heq
    linarith

/-- Value of `weightedSum` on a cons cell. -/
theorem weightedSum_cons (t : Transaction) (ts : List Transaction) (r : ℝ)
    (rs : List ℝ) :
    weightedSum (t :: ts) (r :: rs) = t.shares * r + weightedSum ts rs := by
  simp [weightedSum]

/-- Value of `sharesSum` on a cons cell. -/
theorem sharesSum_cons (t : Transaction) (ts : List Transaction) :
    sharesSum (t :: ts) = t.shares + sharesSum ts := by
  simp [sharesSum]

/-- Every non-empty list of reals has a least and a greatest element. -/
theorem exists_bounds_mem (rs : List ℝ) (h : rs ≠ []) :
    ∃ lo ∈ rs, ∃ hi ∈ rs, ∀ r ∈ rs, lo ≤ r ∧ r ≤ hi := by
  induction rs with
  | nil => exact absurd rfl h
  | cons a l ih =>
      cases l with
      | nil =>
          refine ⟨a, List.mem_singleton_self a, a, List.mem_singleton_self a, ?_⟩
          intro r hr
          rw [List.mem_singleton] at hr
          exact ⟨hr.ge, hr.le⟩
      | cons b m =>
          obtain ⟨lo, hlo, hi, hhi, hb⟩ := ih (by simp)
          refine ⟨min a lo, ?_, max a hi, ?_, ?_⟩
          · rcases le_total a lo with hc | hc
            · rw [min_eq_left hc]; exact List.mem_cons_self a (b :: m)
            · rw [min_eq_right hc]; exact List.mem_cons_of_mem a hlo
          · rcases le_total a hi with hc | hc
            · rw [max_eq_right hc]; exact List.mem_cons_of_mem a hhi
            · rw [max_eq_left hc]; exact List.mem_cons_self a (b :: m)
          · intro r hr
            rcases List.mem_cons.mp hr with hr | hr
            · rw [hr]
              exact ⟨min_le_left a lo, le_max_left a hi⟩
            · obtain ⟨hl, hu⟩ := hb r hr
              exact ⟨le_trans (min_le_right a lo) hl,
                le_trans hu (le_max_right a hi)⟩

/-- A share-weighted sum with non-negative weights is bounded by the
weight total times any lower and upper bound of the values. -/
theorem weightedSum_bounds (lo hi : ℝ) (ts : List Transaction) :
    ∀ rs : List ℝ, ts.length = rs.length →
      (∀ t ∈ ts, 0 ≤ t.shares) → (∀ r ∈ rs, lo ≤ r ∧ r ≤ hi) →
      lo * sharesSum ts ≤ weightedSum ts rs ∧
        weightedSum ts rs ≤ hi * sharesSum ts := by
  induction ts with
  | nil =>
      intro rs _ _ _
      simp [weightedSum, sharesSum]
  | cons t ts ih =>
      intro rs hlen hw hr
      cases rs with
      | nil => simp at hlen
      | cons r rs =>
          have hlen2 : ts.length = rs.length := by simpa using hlen
          obtain ⟨ih1, ih2⟩ := ih rs hlen2
            (fun u hu => hw u (List.mem_cons_of_mem t hu))
            (fun u hu => hr u (List.mem_cons_of_mem r hu))
          have hs : 0 ≤ t.shares := hw t (List.mem_cons_self t ts)
          obtain ⟨hr1, hr2⟩ := hr r (List.mem_cons_self r rs)
          rw [weightedSum_cons, sharesSum_cons]
          constructor
          · have hstep : lo * t.shares ≤ t.shares * r := by nlinarith
            calc lo * (t.shares + sharesSum ts)
                = lo * t.shares + lo * sharesSum ts := by ring
              _ ≤ t.shares * r + weightedSum ts rs := add_le_add hstep ih1
          · have hstep : t.shares * r ≤ hi * t.shares := by nlinarith
            calc t.shares * r + weightedSum ts rs
                ≤ hi * t.shares + hi * sharesSum ts := add_le_add hstep ih2
              _ = hi * (t.shares + sharesSum ts) := by ring

/-- C7: with at least 2 transactions (of positive share counts, per the
data model) whose included returns all compute, the weighted average
equals `sum(shares * return) / sum(shares)` over all transactions except
the last, and it lies between the minimum and the maximum of the included
per-transaction returns. -/
theorem weightedAverageReturn_bounds (trs : List Transaction)
    (cvs : List Closing) (rs : List ℝ)
    (h2 : 2 ≤ trs.length)
    (hrs : List.Forall₂
      (fun t r => calculateReturnTransaction t cvs = some r) trs.dropLast rs)
    (hpos : ∀ t ∈ trs.dropLast, 0 < t.shares) :
    (∃ a, averageReturnTransactions trs cvs =
      some (a, weightedSum trs.dropLast rs / sharesSum trs.dropLast)) ∧
    ∃ lo ∈ rs, ∃ hi ∈ rs, (∀ r ∈ rs, lo ≤ r ∧ r ≤ hi) ∧
      lo ≤ weightedSum trs.dropLast rs / sharesSum trs.dropLast ∧
      weightedSum trs.dropLast rs / sharesSum trs.dropLast ≤ hi := by
  have hne : trs.dropLast ≠ [] := by
    have hl : trs.dropLast.length = trs.length - 1 := List.length_dropLast trs
    intro hcon
    rw [hcon] at hl
    simp only [List.length_nil] at hl
    omega
  have hS : 0 < sharesSum trs.dropLast := by
    unfold sharesSum
    apply List.sum_pos
    · intro s hs
      obtain ⟨t, ht, rfl⟩ := List.mem_map.mp hs
      exact hpos t ht
    · intro hcon
      exact hne (List.map_eq_nil_iff.mp hcon)
  have hlen0 : trs.length ≠ 0 := by omega
  have hlen_eq := List.Forall₂.length_eq hrs
  have hrs_ne : rs ≠ [] := by
    intro hcon
    rw [hcon] at hlen_eq
    simp only [List.length_nil] at hlen_eq
    exact hne (List.length_eq_zero.mp hlen_eq)
  obtain ⟨lo, hlo, hi, hhi, hb⟩ := exists_bounds_mem rs hrs_ne
  obtain ⟨hb1, hb2⟩ := weightedSum_bounds lo hi trs.dropLast rs hlen_eq
    (fun t ht => (hpos t ht).le) hb
  refine ⟨⟨rs.sum / (trs.length : ℝ),
    averageReturnTransactions_eq trs cvs rs hrs hlen0 (ne_of_gt hS)⟩,
    lo, hlo, hi, hhi, hb, ?_, ?_⟩
  · rw [le_div_iff₀ hS]
    exact hb1
  · rw [div_le_iff₀ hS]
    exact hb2

/-- Witness for C7 at a concrete two-transaction batch. -/
theorem weightedAverageReturn_bounds_witness :
    (2 ≤ ([⟨2020, 1, 100, 0, 1, 100⟩, ⟨2021, 1, 200, 366, 1, 200⟩] :
      List Transaction).length) ∧
    ((∃ a, averageReturnTransactions
        [⟨2020, 1, 100, 0, 1, 100⟩, ⟨2021, 1, 200, 366, 1, 200⟩]
        [⟨2021, 1, 200, 366⟩] =
      some (a,
        weightedSum ([⟨2020, 1, 100, 0, 1, 100⟩,
            ⟨2021, 1, 200, 366, 1, 200⟩] : List Transaction).dropLast
          [(10 : ℝ) ^ ((Real.logb 10 (200 * 1) - Real.logb 10 100) /
            (((366 - 0 : ℤ) : ℝ) / 365.25 * 12 / 12)) - 1] /
        sharesSum ([⟨2020, 1, 100, 0, 1, 100⟩,
            ⟨2021, 1, 200, 366, 1, 200⟩] : List Transaction).dropLast)) ∧
    ∃ lo ∈ [(10 : ℝ) ^ ((Real.logb 10 (200 * 1) - Real.logb 10 100) /
        (((366 - 0 : ℤ) : ℝ) / 365.25 * 12 / 12)) - 1],
      ∃ hi ∈ [(10 : ℝ) ^ ((Real.logb 10 (200 * 1) - Real.logb 10 100) /
        (((366 - 0 : ℤ) : ℝ) / 365.25 * 12 / 12)) - 1],
      (∀ r ∈ [(10 : ℝ) ^ ((Real.logb 10 (200 * 1) - Real.logb 10 100) /
          (((366 - 0 : ℤ) : ℝ) / 365.25 * 12 / 12)) - 1],
        lo ≤ r ∧ r ≤ hi) ∧
      lo ≤ weightedSum ([⟨2020, 1, 100, 0, 1, 100⟩,
          ⟨2021, 1, 200, 366, 1, 200⟩] : List Transaction).dropLast
        [(10 : ℝ) ^ ((Real.logb 10 (200 * 1) - Real.logb 10 100) /
          (((366 - 0 : ℤ) : ℝ) / 365.25 * 12 / 12)) - 1] /
        sharesSum ([⟨2020, 1, 100, 0, 1, 100⟩,
          ⟨2021, 1, 200, 366, 1, 200⟩] : List Transaction).dropLast ∧
      weightedSum ([⟨2020, 1, 100, 0, 1, 100⟩,
          ⟨2021, 1, 200, 366, 1, 200⟩] : List Transaction).dropLast
        [(10 : ℝ) ^ ((Real.logb 10 (200 * 1) - Real.logb 10 100) /
          (((366 - 0 : ℤ) : ℝ) / 365.25 * 12 / 12)) - 1] /
        sharesSum ([⟨2020, 1, 100, 0, 1, 100⟩,
          ⟨2021, 1, 200, 366, 1, 200⟩] : List Transaction).dropLast ≤ hi) := by
  have e1 : calculateReturnTransaction ⟨2020, 1, 100, 0, 1, 100⟩
      [⟨2021, 1, 200, 366⟩] =
      calculateReturn 100 (200 * 1) (((366 - 0 : ℤ) : ℝ) / 365.25 * 12) := rfl
  have h1 : calculateReturnTransaction ⟨2020, 1, 100, 0, 1, 100⟩
      [⟨2021, 1, 200, 366⟩] =
      some ((10 : ℝ) ^ ((Real.logb 10 (200 * 1) - Real.logb 10 100) /
        (((366 - 0 : ℤ) : ℝ) / 365.25 * 12 / 12)) - 1) :=
    e1.trans ((calculateReturn_domain 100 (200 * 1)
      (((366 - 0 : ℤ) : ℝ) / 365.25 * 12)).2 (by norm_num) (by norm_num)
      (by norm_num))
  have hpos : ∀ t ∈ ([⟨2020, 1, 100, 0, 1, 100⟩,
      ⟨2021, 1, 200, 366, 1, 200⟩] : List Transaction).dropLast,
      0 < t.shares := by
    intro t ht
    have hd : ([⟨2020, 1, 100, 0, 1, 100⟩,
        ⟨2021, 1, 200, 366, 1, 200⟩] : List Transaction).dropLast =
        [⟨2020, 1, 100, 0, 1, 100⟩] := rfl
    rw [hd, List.mem_singleton] at ht
    rw [ht]
    norm_num
  exact ⟨by norm_num, weightedAverageReturn_bounds
    [⟨2020, 1, 100, 0, 1, 100⟩, ⟨2021, 1, 200, 366, 1, 200⟩]
    [⟨2021, 1, 200, 366⟩]
    [(10 : ℝ) ^ ((Real.logb 10 (200 * 1) - Real.logb 10 100) /
      (((366 - 0 : ℤ) : ℝ) / 365.25 * 12 / 12)) - 1]
    (by norm_num) (List.Forall₂.cons h1 List.Forall₂.nil) hpos⟩

/-- One step of the reducer loop. -/
theorem monthlyCloseAux_cons (py pm : ℤ) (r : Row) (rs : List Row) :
    monthlyCloseAux py pm (r :: rs) =
      if r.month > pm ∨ r.year > py then
        toClosing r :: monthlyCloseAux r.year r.month rs
      else monthlyCloseAux py pm rs := rfl

/-- Step lemma for `find?` with the month-key predicate, matching head. -/
theorem find?_month_cons_pos (c : Closing) (r : Row) (rs : List Row)
    (h : r.year = c.year ∧ r.month = c.month) :
    (r :: rs).find? (fun u => u.year == c.year && u.month == c.month) =
      some r := by
  have hb : (r.year == c.year && r.month == c.month) = true := by
    simp only [Bool.and_eq_true, beq_iff_eq]
    exact h
  simp only [List.find?_cons, hb]

/-- Step lemma for `find?` with the month-key predicate, non-matching head. -/
theorem find?_month_cons_neg (c : Closing) (r : Row) (rs : List Row)
    (h : ¬(r.year = c.year ∧ r.month = c.month)) :
    (r :: rs).find? (fun u => u.year == c.year && u.month == c.month) =
      rs.find? (fun u => u.year == c.year && u.month == c.month) := by
  have hb : (r.year == c.year && r.month == c.month) = false := by
    rw [Bool.eq_false_iff]
    intro hb
    apply h
    simpa only [Bool.and_eq_true, beq_iff_eq] using hb
  simp only [List.find?_cons, hb]

/-- A chain under a transitive relation is pairwise related. -/
theorem pairwise_of_chain {α : Type} {R : α → α → Prop}
    (hR : ∀ a b c, R a b → R b c → R a c) :
    ∀ l : List α, List.Chain' R l → List.Pairwise R l := by
  intro l hl
  induction l with
  | nil => exact List.Pairwise.nil
  | cons a l ih =>
      cases l with
      | nil => exact List.pairwise_singleton R a
      | cons b m =>
          rw [List.chain'_cons] at hl
          have hp := ih hl.2
          refine List.Pairwise.cons ?_ hp
          intro x hx
          rcases List.mem_cons.mp hx with hx | hx
          · rw [hx]
            exact hl.1
          · exact hR a b x hl.1 ((List.pairwise_cons.mp hp).1 x hx)

/-- Invariants of the reducer loop once a first observation has been
emitted: given (year, month)-sorted remaining rows at least as late as the
pivot row `a`, the output starting with `a`'s observation is strictly
increasing in (year, month), bounded below by `a`'s key, and every
emitted observation is the first row of its (year, month). -/
theorem monthlyCloseAux_pivot (rs : List Row) :
    ∀ a : Row, List.Chain' (fun u v => lexLe (rowKey u) (rowKey v)) (a :: rs) →
    List.Chain' (fun c d => lexLt (closingKey c) (closingKey d))
      (toClosing a :: monthlyCloseAux a.year a.month rs) ∧
    (∀ c ∈ toClosing a :: monthlyCloseAux a.year a.month rs,
      lexLe (rowKey a) (closingKey c)) ∧
    (∀ c ∈ toClosing a :: monthlyCloseAux a.year a.month rs,
      ∃ r, (a :: rs).find?
          (fun u => u.year == c.year && u.month == c.month) = some r ∧
        toClosing r = c) := by
  induction rs with
  | nil =>
      intro a _
      have haux : monthlyCloseAux a.year a.month ([] : List Row) = [] := rfl
      rw [haux]
      refine ⟨List.chain'_singleton _, ?_, ?_⟩
      · intro c hc
        rw [List.mem_singleton] at hc
        subst hc
        exact Or.inr ⟨rfl, le_refl _⟩
      · intro c hc
        rw [List.mem_singleton] at hc
        subst hc
        exact ⟨a, find?_month_cons_pos _ a [] ⟨rfl, rfl⟩, rfl⟩
  | cons b t ih =>
      intro a hch
      rw [List.chain'_cons] at hch
      obtain ⟨hab, hch2⟩ := hch
      rw [monthlyCloseAux_cons]
      by_cases hcond : b.month > a.month ∨ b.year > a.year
      · rw [if_pos hcond]
        obtain ⟨ih1, ih2, ih3⟩ := ih b hch2
        have hk : lexLt (rowKey a) (rowKey b) := by
          simp only [rowKey, lexLe, lexLt] at hab ⊢
          omega
        refine ⟨List.chain'_cons.mpr ⟨hk, ih1⟩, ?_, ?_⟩
        · intro c hc
          rcases List.mem_cons.mp hc with hc | hc
          · subst hc
            exact Or.inr ⟨rfl, le_refl _⟩
          · have h2c := ih2 c hc
            simp only [rowKey, lexLe, lexLt] at hk h2c ⊢
            omega
        · intro c hc
          rcases List.mem_cons.mp hc with hc | hc
          · subst hc
            exact ⟨a, find?_month_cons_pos _ a (b :: t) ⟨rfl, rfl⟩, rfl⟩
          · obtain ⟨r, hfind, hrc⟩ := ih3 c hc
            have h2c := ih2 c hc
            have hpa : ¬(a.year = c.year ∧ a.month = c.month) := by
              simp only [rowKey, closingKey, lexLe, lexLt] at hk h2c
              omega
            refine ⟨r, ?_, hrc⟩
            rw [find?_month_cons_neg c a (b :: t) hpa]
            exact hfind
      · rw [if_neg hcond]
        push_neg at hcond
        have hkey : b.year = a.year ∧ b.month = a.month := by
          simp only [rowKey, lexLe] at hab
          omega
        have hra : rowKey a = rowKey b := by
          simp only [rowKey]
          rw [hkey.1, hkey.2]
        have hch3 : List.Chain'
            (fun u v => lexLe (rowKey u) (rowKey v)) (a :: t) := by
          cases t with
          | nil => exact List.chain'_singleton _
          | cons u us =>
              rw [List.chain'_cons] at hch2 ⊢
              refine ⟨?_, hch2.2⟩
              rw [hra]
              exact hch2.1
        obtain ⟨ih1, ih2, ih3⟩ := ih a hch3
        refine ⟨ih1, ih2, ?_⟩
        intro c hc
        obtain ⟨r, hfind, hrc⟩ := ih3 c hc
        by_cases hpa : a.year = c.year ∧ a.month = c.month
        · rw [find?_month_cons_pos c a t hpa, Option.some.injEq] at hfind
          refine ⟨a, find?_month_cons_pos c a (b :: t) hpa, ?_⟩
          rw [hfind]
          exact hrc
        · have hph : ¬(b.year = c.year ∧ b.month = c.month) := by
            rw [hkey.1, hkey.2]
            exact hpa
          refine ⟨r, ?_, hrc⟩
          rw [find?_month_cons_neg c a (b :: t) hpa,
            find?_month_cons_neg c b t hph]
          rw [find?_month_cons_neg c a t hpa] at hfind
          exact hfind

/-- C8: on input sorted ascending by date (hence (year, month)
lexicographically non-decreasing) with real calendar months, the Reducer's
output is strictly increasing in (year, month) lexicographic order, no
two Observations share a (year, month), and each Observation carries the
year, month, price and timestamp of the first row seen in its calendar
month. -/
theorem monthlyClose_invariants (rows : List Row)
    (hsorted : List.Chain' (fun u v => lexLe (rowKey u) (rowKey v)) rows)
    (hmonth : ∀ r ∈ rows, 1 ≤ r.month) :
    List.Pairwise (fun c d => lexLt (closingKey c) (closingKey d))
      (monthlyClose rows) ∧
    List.Pairwise (fun c d => ¬(c.year = d.year ∧ c.month = d.month))
      (monthlyClose rows) ∧
    ∀ c ∈ monthlyClose rows, ∃ r,
      rows.find? (fun u => u.year == c.year && u.month == c.month) = some r ∧
      toClosing r = c := by
  cases rows with
  | nil =>
      refine ⟨List.Pairwise.nil, List.Pairwise.nil, ?_⟩
      intro c hc
      simp [monthlyClose, monthlyCloseAux] at hc
  | cons a rs =>
      have hm : 1 ≤ a.month := hmonth a (List.mem_cons_self a rs)
      have hout : monthlyClose (a :: rs) =
          toClosing a :: monthlyCloseAux a.year a.month rs := by
        simp only [monthlyClose]
        rw [monthlyCloseAux_cons, if_pos (Or.inl (by omega : a.month > (-1 : ℤ)))]
      obtain ⟨h1, h2, h3⟩ := monthlyCloseAux_pivot rs a hsorted
      rw [hout]
      have htr : ∀ c d e : Closing, lexLt (closingKey c) (closingKey d) →
          lexLt (closingKey d) (closingKey e) →
          lexLt (closingKey c) (closingKey e) := by
        intro c d e hcd hde
        simp only [closingKey, lexLt] at hcd hde ⊢
        omega
      have hpw := pairwise_of_chain htr _ h1
      refine ⟨hpw, hpw.imp ?_, h3⟩
      intro c d hlt
      simp only [closingKey, lexLt] at hlt
      omega

/-- Witness for C8 at a concrete sorted three-row input (two rows in
2020-01, one in 2020-02). -/
theorem monthlyClose_invariants_witness :
    List.Chain' (fun u v => lexLe (rowKey u) (rowKey v))
      ([⟨2020, 1, 100, 0⟩, ⟨2020, 1, 101, 1⟩, ⟨2020, 2, 102, 31⟩] :
        List Row) ∧
    (List.Pairwise (fun c d => lexLt (closingKey c) (closingKey d))
      (monthlyClose
        [⟨2020, 1, 100, 0⟩, ⟨2020, 1, 101, 1⟩, ⟨2020, 2, 102, 31⟩]) ∧
    List.Pairwise (fun c d => ¬(c.year = d.year ∧ c.month = d.month))
      (monthlyClose
        [⟨2020, 1, 100, 0⟩, ⟨2020, 1, 101, 1⟩, ⟨2020, 2, 102, 31⟩]) ∧
    ∀ c ∈ monthlyClose
        [⟨2020, 1, 100, 0⟩, ⟨2020, 1, 101, 1⟩, ⟨2020, 2, 102, 31⟩], ∃ r,
      ([⟨2020, 1, 100, 0⟩, ⟨2020, 1, 101, 1⟩, ⟨2020, 2, 102, 31⟩] :
        List Row).find?
        (fun u => u.year == c.year && u.month == c.month) = some r ∧
      toClosing r = c) :=
  ⟨List.chain'_cons.mpr ⟨Or.inr ⟨rfl, by simp [rowKey]⟩,
      List.chain'_cons.mpr ⟨Or.inr ⟨rfl, by simp [rowKey]⟩,
        List.chain'_singleton _⟩⟩,
    monthlyClose_invariants
      [⟨2020, 1, 100, 0⟩, ⟨2020, 1, 101, 1⟩, ⟨2020, 2, 102, 31⟩]
      (List.chain'_cons.mpr ⟨Or.inr ⟨rfl, by simp [rowKey]⟩,
        List.chain'_cons.mpr ⟨Or.inr ⟨rfl, by simp [rowKey]⟩,
          List.chain'_singleton _⟩⟩)
      (by decide)⟩
